import Mathlib

/-!
Verification of the SPIFFE identity / trust-bundle / mTLS core of this
repository.  Rust strings are modelled as `List Char`, byte vectors as
`List Nat`, and `chrono` timestamps / durations as integer nanoseconds.
The WHATWG-style URL parser used by `SpiffeId` (the `url` crate) is
modelled for `spiffe`-like non-special schemes: scheme extraction,
authority/host/port splitting (including bracketed IPv6 host literals),
and dot-segment path normalization.
-/

set_option maxHeartbeats 1000000

namespace Spec2Proof

deriving instance DecidableEq for Except

/-! ## Character-list utilities -/

def spanP (p : Char → Bool) : List Char → List Char × List Char
  | [] => ([], [])
  | c :: cs =>
    match p c with
    | true => (c :: (spanP p cs).1, (spanP p cs).2)
    | false => ([], c :: cs)

def splitOnChar (sep : Char) : List Char → List (List Char)
  | [] => [[]]
  | c :: cs =>
    if c = sep then [] :: splitOnChar sep cs
    else
      match splitOnChar sep cs with
      | [] => [[c]]
      | s :: rest => (c :: s) :: rest

def joinChar (sep : Char) : List (List Char) → List Char
  | [] => []
  | [s] => s
  | s :: rest => s ++ sep :: joinChar sep rest

def stripPre (pre s : List Char) : Option (List Char) :=
  match pre, s with
  | [], s => some s
  | _ :: _, [] => none
  | p :: ps, c :: cs => if c = p then stripPre ps cs else none

/-! ## URL model (the `url` crate, specialized to non-special schemes)

`host = none` corresponds to a URL with no authority
(`cannot_be_a_base` / `host_str() == None` in the crate).  The query and
fragment portion is kept verbatim in `rest`.  Bracketed IPv6 hosts are
accepted as in the crate (`host_str()` keeps the brackets, so a host
can contain colons); their text is validated by character set, a
superset of the valid IPv6 texts, and kept verbatim rather than
re-serialized in compressed form. -/

structure Url where
  scheme : List Char
  host : Option (List Char)
  port : Option Nat
  path : List Char
  rest : List Char
deriving DecidableEq, Repr, Inhabited

def isSchemeTail (c : Char) : Bool :=
  c.isAlphanum || c = '+' || c = '-' || c = '.'

def forbiddenHostChar (c : Char) : Bool :=
  c = '\x00' || c = '\t' || c = '\n' || c = '\r' || c = ' ' || c = '#' ||
  c = '/' || c = ':' || c = '<' || c = '>' || c = '?' || c = '@' ||
  c = '[' || c = '\\' || c = ']' || c = '^' || c = '|'

def dotSeg : List Char := ['.']

def dotDotSeg : List Char := ['.', '.']

/-- WHATWG path state: single-dot segments are skipped, a double-dot
segment removes the preceding segment; a trailing dot segment leaves a
trailing empty segment. -/
def dotProcess (acc : List (List Char)) : List (List Char) → List (List Char)
  | [] => acc
  | s :: rest =>
    if s = dotDotSeg then
      if rest.isEmpty then acc.dropLast ++ [[]] else dotProcess acc.dropLast rest
    else if s = dotSeg then
      if rest.isEmpty then acc ++ [[]] else dotProcess acc rest
    else
      if rest.isEmpty then acc ++ [s] else dotProcess (acc ++ [s]) rest

/-- Normalize a path region that begins with a slash. -/
def normPath (p : List Char) : List Char :=
  '/' :: joinChar '/' (dotProcess [] (splitOnChar '/' (p.drop 1)))

def startsWithSeq (pat s : List Char) : Bool :=
  (stripPre pat s).isSome

def containsSeq (pat : List Char) : List Char → Bool
  | [] => pat.isEmpty
  | c :: cs => startsWithSeq pat (c :: cs) || containsSeq pat cs

def afterLastAt (s : List Char) : List Char :=
  (splitOnChar '@' s).getLastD []

def digitsToNat : List Char → Nat → Nat
  | [], n => n
  | c :: cs, n => digitsToNat cs (n * 10 + (c.toNat - 48))

def mkAuthorityUrl (scheme host : List Char) (port : Option Nat)
    (tail : List Char) : Url :=
  let (pathRegion, rest) := spanP (fun c => !(c = '?' || c = '#')) tail
  let path := match pathRegion with
    | [] => []
    | _ => normPath pathRegion
  { scheme := scheme, host := some host, port := port, path := path, rest := rest }

/-- Split the hostport at the first colon that is outside square
brackets (the WHATWG host state tracks bracket nesting so that a colon
inside an IPv6 literal does not start the port). -/
def hostSpan (inside : Bool) : List Char → List Char × List Char
  | [] => ([], [])
  | c :: cs =>
    if c = ':' && !inside then ([], c :: cs)
    else
      let inside' := if c = '[' then true else if c = ']' then false else inside
      (c :: (hostSpan inside' cs).1, (hostSpan inside' cs).2)

/-- Characters that may occur inside an IPv6 host literal (hex digits,
colons and the dots of an embedded IPv4 tail). -/
def isIpv6Char (c : Char) : Bool :=
  c.isDigit || ('a' ≤ c && c ≤ 'f') || ('A' ≤ c && c ≤ 'F') || c = ':' || c = '.'

/-- After the opening bracket: a non-empty run of IPv6 characters ending
in the closing bracket. -/
def ipv6Tail : List Char → Bool
  | [] => false
  | [c] => c = ']'
  | c :: cs => isIpv6Char c && ipv6Tail cs

/-- A `[`-prefixed host must end with `]` and hold a non-empty IPv6
text between (checked here by character set, a superset of the valid
IPv6 texts, so no host the crate accepts is dropped). -/
def bracketHostOk : List Char → Bool
  | [] => false
  | a :: rest =>
    match rest with
    | [] => false
    | r0 :: _ => a = '[' && isIpv6Char r0 && ipv6Tail rest

/-- Host validation: a bracketed host is an IPv6 literal; any other
host must avoid the forbidden host code points. -/
def hostRejected (host : List Char) : Bool :=
  if host.head? = some '[' then !(bracketHostOk host)
  else host.any forbiddenHostChar

def parseAfterSlashes (scheme s : List Char) : Option Url :=
  let (auth, tail) := spanP (fun c => !(c = '/' || c = '?' || c = '#')) s
  let hostport := afterLastAt auth
  let hasCreds := auth.any (fun c => c = '@')
  let (host, portPart) := hostSpan false hostport
  if hostRejected host then none
  else
    match portPart with
    | [] =>
      if host.isEmpty && hasCreds then none
      else some (mkAuthorityUrl scheme host none tail)
    | _ :: digits =>
      if digits.isEmpty then
        if host.isEmpty && hasCreds then none
        else some (mkAuthorityUrl scheme host none tail)
      else if digits.all Char.isDigit then
        if host.isEmpty then none
        else
          let n := digitsToNat digits 0
          if n < 65536 then some (mkAuthorityUrl scheme host (some n) tail)
          else none
      else none

/-- `Url::parse` for an absolute URL, specialized to the shapes this
repository feeds it (non-special schemes with an authority, or opaque
cannot-be-a-base forms). -/
def parseUrl (s : List Char) : Option Url :=
  match spanP isSchemeTail s with
  | (c :: cs, ':' :: rest) =>
    if c.isAlpha then
      let scheme := (c :: cs).map Char.toLower
      match rest with
      | '/' :: '/' :: afterSlashes => parseAfterSlashes scheme afterSlashes
      | _ =>
        let (path, rest2) := spanP (fun ch => !(ch = '?' || ch = '#')) rest
        some { scheme := scheme, host := none, port := none, path := path,
               rest := rest2 }
    else none
  | _ => none

/-- `Url`'s `Display` serialization. -/
def urlToString (u : Url) : List Char :=
  u.scheme ++ ':' ::
    (match u.host with
     | some h =>
       '/' :: '/' :: h ++
         (match u.port with
          | some n => ':' :: Nat.toDigits 10 n
          | none => []) ++ u.path
     | none => u.path) ++ u.rest

/-- `SpiffeId::new` path normalization: prefix a slash when missing. -/
def normSlash (path : List Char) : List Char :=
  if !(path.head? = some '/') then '/' :: path else path

/-! ## spiffe-client error type (src/rust/spiffe-client/src/error.rs) -/

inductive Error where
  | invalidSpiffeId : List Char → Error
  | x509Error : List Char → Error
  | jwtError : List Char → Error
  | tlsError : List Char → Error
  | trustBundleError : List Char → Error
  | validationError : List Char → Error
  | urlError : Error
deriving DecidableEq, Repr

/-! ## SpiffeId (src/rust/spiffe-client/src/spiffe_id.rs) -/

structure SpiffeId where
  trust_domain : List Char
  path : List Char
  raw_url : Url
deriving DecidableEq, Repr, Inhabited

def SpiffeId.new (trust_domain path : List Char) : Except Error SpiffeId :=
  if trust_domain.isEmpty then
    .error (.invalidSpiffeId (("Trust domain cannot be empty").toList))
  else if trust_domain.contains '/' || trust_domain.contains ':' then
    .error (.invalidSpiffeId (("Trust domain cannot contain / or :").toList))
  else if path.isEmpty then
    .error (.invalidSpiffeId (("Path cannot be empty").toList))
  else
    let path' := normSlash path
    let url_str := ("spiffe://").toList ++ trust_domain ++ path'
    match parseUrl url_str with
    | none => .error .urlError
    | some u =>
      if !(u.scheme = ("spiffe").toList) then
        .error (.invalidSpiffeId (("Scheme must be spiffe").toList))
      else if u.host.isNone then
        .error (.invalidSpiffeId (("Invalid SPIFFE ID structure").toList))
      else .ok { trust_domain := trust_domain, path := path', raw_url := u }

def SpiffeId.parse (s : List Char) : Except Error SpiffeId :=
  match parseUrl s with
  | none => .error .urlError
  | some u =>
    if !(u.scheme = ("spiffe").toList) then
      .error (.invalidSpiffeId (("Invalid scheme, expected spiffe").toList))
    else
      match u.host with
      | none => .error (.invalidSpiffeId (("Missing trust domain").toList))
      | some h =>
        if h.isEmpty then
          .error (.invalidSpiffeId (("Empty trust domain").toList))
        else if u.path.isEmpty || u.path = ['/'] then
          .error (.invalidSpiffeId (("SPIFFE ID must have a non-empty path").toList))
        else .ok { trust_domain := h, path := u.path, raw_url := u }

def SpiffeId.is_member_of (id : SpiffeId) (trust_domain : List Char) : Bool :=
  id.trust_domain = trust_domain

def SpiffeId.validate (id : SpiffeId) : Except Error Unit :=
  if id.trust_domain.isEmpty then
    .error (.invalidSpiffeId (("Empty trust domain").toList))
  else if id.path.isEmpty || id.path = ['/'] then
    .error (.invalidSpiffeId (("Invalid path").toList))
  else if containsSeq dotDotSeg id.path then
    .error (.invalidSpiffeId (("Path cannot contain dot-dot segments").toList))
  else .ok ()

/-- `impl fmt::Display for SpiffeId`: prints the stored `raw_url`. -/
def SpiffeId.toText (id : SpiffeId) : List Char :=
  urlToString id.raw_url

/-! ## SVIDs (src/rust/spiffe-client/src/svid.rs)

`chrono::DateTime<Utc>` values and `chrono::Duration` values are
integer nanosecond counts; `Utc::now()` is passed in explicitly as
`now`.  Rust `Duration / i32` truncates toward zero, i.e. `Int.div`. -/

def nanosPerDay : Int := 86400000000000

structure X509Svid where
  spiffe_id : SpiffeId
  cert_chain : List (List Nat)
  private_key : List Nat
  expiry : Int
  serial_number : List Char
deriving DecidableEq, Repr, Inhabited

def X509Svid.new (spiffe_id : SpiffeId) (cert_chain : List (List Nat))
    (private_key : List Nat) (expiry : Int) (serial_number : List Char) :
    Except Error X509Svid :=
  if cert_chain.isEmpty then
    .error (.x509Error (("Certificate chain cannot be empty").toList))
  else if private_key.isEmpty then
    .error (.x509Error (("Private key cannot be empty").toList))
  else
    match spiffe_id.validate with
    | .error e => .error e
    | .ok _ =>
      .ok { spiffe_id := spiffe_id, cert_chain := cert_chain,
            private_key := private_key, expiry := expiry,
            serial_number := serial_number }

def X509Svid.is_expired (s : X509Svid) (now : Int) : Bool :=
  now > s.expiry

def X509Svid.time_until_expiry (s : X509Svid) (now : Int) : Int :=
  s.expiry - now

def X509Svid.validate (s : X509Svid) (now : Int) : Except Error Unit :=
  if s.is_expired now then
    .error (.validationError (("SVID has expired").toList))
  else s.spiffe_id.validate

/-- `needs_rotation`: the nominal lifetime window is approximated in the
source as time-until-expiry plus 24 hours. -/
def X509Svid.needs_rotation (s : X509Svid) (now : Int) : Bool :=
  let time_until := s.time_until_expiry now
  let total_lifetime := s.expiry - now + nanosPerDay
  time_until < Int.tdiv total_lifetime 3

structure JwtSvid where
  spiffe_id : SpiffeId
  token : List Char
  expiry : Int
  audience : List (List Char)
deriving DecidableEq, Repr, Inhabited

def JwtSvid.new (spiffe_id : SpiffeId) (token : List Char) (expiry : Int)
    (audience : List (List Char)) : Except Error JwtSvid :=
  if token.isEmpty then
    .error (.jwtError (("Token cannot be empty").toList))
  else if !((splitOnChar '.' token).length = 3) then
    .error (.jwtError (("Invalid JWT format").toList))
  else
    match spiffe_id.validate with
    | .error e => .error e
    | .ok _ =>
      .ok { spiffe_id := spiffe_id, token := token, expiry := expiry,
            audience := audience }

def JwtSvid.is_expired (s : JwtSvid) (now : Int) : Bool :=
  now > s.expiry

/-- `SvidBundle`: the JWT map is modelled as an association list of
(audience, SVID) pairs. -/
structure SvidBundle where
  x509_svid : Option X509Svid
  jwt_svids : List (List Char × JwtSvid)
deriving DecidableEq, Repr

def SvidBundle.needs_rotation (b : SvidBundle) (now : Int) : Bool :=
  match b.x509_svid with
  | some x509 =>
    if x509.needs_rotation now then true
    else b.jwt_svids.any (fun p => p.2.is_expired now)
  | none => b.jwt_svids.any (fun p => p.2.is_expired now)

/-! ## Trust bundles (src/rust/spiffe-client/src/trust_bundle.rs) -/

structure TrustBundle where
  trust_domain : List Char
  certificates : List (List Nat)
  sequence_number : Nat
  updated_at : Int
deriving DecidableEq, Repr

def TrustBundle.validate (b : TrustBundle) : Except Error Unit :=
  if b.trust_domain.isEmpty then
    .error (.trustBundleError (("Trust domain cannot be empty").toList))
  else if b.certificates.isEmpty then
    .error (.trustBundleError
      (("Trust bundle must contain at least one certificate").toList))
  else if b.certificates.any List.isEmpty then
    .error (.trustBundleError (("Certificate is empty").toList))
  else .ok ()

def TrustBundle.is_newer_than (b other : TrustBundle) : Bool :=
  b.sequence_number > other.sequence_number

/-- `merge(&mut self, other)`: the first component of the result is the
post-state of `self`, the second the returned `Result`. -/
def TrustBundle.merge (self other : TrustBundle) :
    TrustBundle × Except Error Unit :=
  if !(self.trust_domain = other.trust_domain) then
    (self, .error (.trustBundleError
      (("Cannot merge bundles from different trust domains").toList)))
  else if other.is_newer_than self then
    ({ self with certificates := other.certificates,
                 sequence_number := other.sequence_number,
                 updated_at := other.updated_at }, .ok ())
  else (self, .ok ())

/-- `TrustBundleStore`: its `HashMap<String, TrustBundle>` is modelled
as an association list with unique keys; `insert` replaces. -/
abbrev Store := List (List Char × TrustBundle)

def storeGet (s : Store) (d : List Char) : Option TrustBundle :=
  (s.find? (fun p => p.1 = d)).map (fun p => p.2)

def storeInsert (s : Store) (d : List Char) (b : TrustBundle) : Store :=
  match s with
  | [] => [(d, b)]
  | p :: rest =>
    if p.1 = d then (d, b) :: rest else p :: storeInsert rest d b

/-- `update_if_newer`: the first component is the post-state of the
store, the second the returned `Result<bool>`. -/
def update_if_newer (s : Store) (bundle : TrustBundle) :
    Store × Except Error Bool :=
  match bundle.validate with
  | .error e => (s, .error e)
  | .ok _ =>
    match storeGet s bundle.trust_domain with
    | some existing =>
      if bundle.is_newer_than existing then
        (storeInsert s bundle.trust_domain bundle, .ok true)
      else (s, .ok false)
    | none => (storeInsert s bundle.trust_domain bundle, .ok true)

/-! ## mTLS configuration (src/rust/spiffe-client/src/mtls.rs)

The rustls pieces (`RootCertStore::add`, `PrivateKeyDer::try_from`,
`with_client_auth_cert`, `WebPkiClientVerifier::builder(..).build`,
`with_single_cert`) are external library calls on opaque certificate
bytes; they are abstracted as an arbitrary `TlsEngine` of predicates
saying which byte inputs those calls accept. -/

structure ClientConfig where
  roots : List (List Nat)
  chain : List (List Nat)
  key : List Nat
deriving DecidableEq, Repr

structure ServerConfig where
  roots : List (List Nat)
  chain : List (List Nat)
  key : List Nat
deriving DecidableEq, Repr

structure TlsEngine where
  rootAddOk : List Nat → Bool
  keyParseOk : List Nat → Bool
  clientAuthOk : List (List Nat) → List Nat → Bool
  verifierBuildOk : List (List Nat) → Bool
  singleCertOk : List (List Nat) → List Nat → Bool

def convert_cert_chain (chain : List (List Nat)) :
    Except Error (List (List Nat)) :=
  if chain.isEmpty then
    .error (.tlsError (("Certificate chain is empty").toList))
  else .ok chain

def convert_private_key (eng : TlsEngine) (key_der : List Nat) :
    Except Error (List Nat) :=
  if key_der.isEmpty then
    .error (.tlsError (("Private key is empty").toList))
  else if !(eng.keyParseOk key_der) then
    .error (.tlsError (("Failed to parse private key").toList))
  else .ok key_der

def build_client_config (eng : TlsEngine) (svid : X509Svid)
    (trust_bundle : TrustBundle) : Except Error ClientConfig :=
  if !(trust_bundle.certificates.all eng.rootAddOk) then
    .error (.tlsError (("Failed to add root certificate").toList))
  else
    match convert_cert_chain svid.cert_chain with
    | .error e => .error e
    | .ok chain =>
      match convert_private_key eng svid.private_key with
      | .error e => .error e
      | .ok key =>
        if !(eng.clientAuthOk chain key) then
          .error (.tlsError (("Failed to create client config").toList))
        else .ok { roots := trust_bundle.certificates, chain := chain, key := key }

def build_server_config (eng : TlsEngine) (svid : X509Svid)
    (trust_bundle : TrustBundle) : Except Error ServerConfig :=
  if !(trust_bundle.certificates.all eng.rootAddOk) then
    .error (.tlsError (("Failed to add root certificate").toList))
  else if !(eng.verifierBuildOk trust_bundle.certificates) then
    .error (.tlsError (("Failed to create client verifier").toList))
  else
    match convert_cert_chain svid.cert_chain with
    | .error e => .error e
    | .ok chain =>
      match convert_private_key eng svid.private_key with
      | .error e => .error e
      | .ok key =>
        if !(eng.singleCertOk chain key) then
          .error (.tlsError (("Failed to create server config").toList))
        else .ok { roots := trust_bundle.certificates, chain := chain, key := key }

structure MtlsConfig where
  client_config : ClientConfig
  server_config : Option ServerConfig
  spiffe_id : SpiffeId
deriving DecidableEq, Repr

/-- `update_svid(&mut self, svid, trust_bundle)`: the first component is
the post-state of the configuration, the second the returned `Result`. -/
def MtlsConfig.update_svid (eng : TlsEngine) (cfg : MtlsConfig)
    (svid : X509Svid) (trust_bundle : TrustBundle) (now : Int) :
    MtlsConfig × Except Error Unit :=
  if svid.is_expired now then
    (cfg, .error (.validationError (("Cannot update with expired SVID").toList)))
  else
    match build_client_config eng svid trust_bundle with
    | .error e => (cfg, .error e)
    | .ok client_config =>
      match build_server_config eng svid trust_bundle with
      | .error e => (cfg, .error e)
      | .ok server_config =>
        ({ client_config := client_config,
           server_config := some server_config,
           spiffe_id := svid.spiffe_id }, .ok ())

/-! ## mTLS peer validator (src/rust/spiffe-client/src/mtls.rs) -/

structure MtlsValidator where
  expected_spiffe_ids : List SpiffeId
  trust_bundle : TrustBundle

def MtlsValidator.extract_spiffe_id (_v : MtlsValidator)
    (_cert_der : List Nat) : Except Error SpiffeId :=
  SpiffeId.new (("example.org").toList) (("/peer/service").toList)

def MtlsValidator.validate_peer_cert (v : MtlsValidator)
    (cert_chain : List (List Nat)) : Except Error SpiffeId :=
  match cert_chain with
  | [] => .error (.validationError (("Peer certificate chain is empty").toList))
  | leaf :: _ =>
    match v.extract_spiffe_id leaf with
    | .error e => .error e
    | .ok spiffe_id =>
      if !(v.expected_spiffe_ids.isEmpty) &&
         !(v.expected_spiffe_ids.contains spiffe_id) then
        .error (.validationError (("Unexpected SPIFFE ID").toList))
      else .ok spiffe_id

/-! ## spire-client peer verifier
(src/rust/spire-client/src/transport/spiffe.rs) -/

inductive VerifyError where
  | invalidFormat : VerifyError
  | missingDomain : VerifyError
  | domainMismatch : List Char → List Char → VerifyError
deriving DecidableEq, Repr

/-- `splitn(2, '/')`: at most two pieces, split at the first slash. -/
def splitn2Slash (s : List Char) : List (List Char) :=
  match spanP (fun c => !(c = '/')) s with
  | (a, []) => [a]
  | (a, _ :: rest) => [a, rest]

def validate_spiffe_id (spiffe_id expected_trust_domain : List Char) :
    Except VerifyError Unit :=
  match stripPre (("spiffe://").toList) spiffe_id with
  | none => .error .invalidFormat
  | some rest =>
    match splitn2Slash rest with
    | [] => .error .missingDomain
    | trust_domain :: _ =>
      if !(trust_domain = expected_trust_domain) then
        .error (.domainMismatch expected_trust_domain trust_domain)
      else .ok ()

/-- The domain component the verifier compares: everything after
`spiffe://` up to the first slash. -/
def uriDomainPart (spiffe_id : List Char) : List Char :=
  (spanP (fun c => !(c = '/')) (spiffe_id.drop 9)).1

/-! ## Character classes and concrete fixtures used in witnesses -/

def hostSafeChar (c : Char) : Bool :=
  c.isAlphanum || c = '.' || c = '-' || c = '_'

def pathSafeChar (c : Char) : Bool :=
  hostSafeChar c || c = '/'

def spWeb : SpiffeId :=
  { trust_domain := ("example.org").toList,
    path := ("/service/web").toList,
    raw_url := { scheme := ("spiffe").toList,
                 host := some (("example.org").toList), port := none,
                 path := ("/service/web").toList, rest := [] } }

def tbA : TrustBundle :=
  { trust_domain := ("example.org").toList, certificates := [[1]],
    sequence_number := 1, updated_at := 0 }

def tbB : TrustBundle :=
  { trust_domain := ("example.org").toList, certificates := [[2]],
    sequence_number := 2, updated_at := 5 }

def tbC : TrustBundle :=
  { trust_domain := ("other.org").toList, certificates := [[3]],
    sequence_number := 7, updated_at := 9 }

def stA : Store := [(("example.org").toList, tbA)]

def engAll : TlsEngine :=
  { rootAddOk := fun _ => true, keyParseOk := fun _ => true,
    clientAuthOk := fun _ _ => true, verifierBuildOk := fun _ => true,
    singleCertOk := fun _ _ => true }

def svidFresh : X509Svid :=
  { spiffe_id := spWeb, cert_chain := [[1]], private_key := [2],
    expiry := 100, serial_number := ("1").toList }

def cfg0 : MtlsConfig :=
  { client_config := { roots := [[9]], chain := [[1]], key := [2] },
    server_config := none, spiffe_id := spWeb }

def mvNone : MtlsValidator := { expected_spiffe_ids := [], trust_bundle := tbA }

def mvWeb : MtlsValidator := { expected_spiffe_ids := [spWeb], trust_bundle := tbA }

def svidOld : X509Svid := { svidFresh with expiry := -5 }

/-! # Theorems -/

/-! ## Generic list lemmas -/

theorem spanP_all (q : Char → Bool) (xs : List Char)
    (h : ∀ c ∈ xs, q c = true) : spanP q xs = (xs, []) := by
  induction xs with
  | nil => rfl
  | cons c cs ih =>
    have hc := h c (by simp)
    simp [spanP, hc, ih (fun x hx => h x (by simp [hx]))]

theorem spanP_append_stop (q : Char → Bool) (xs : List Char) (y : Char)
    (ys : List Char) (h : ∀ c ∈ xs, q c = true) (hy : q y = false) :
    spanP q (xs ++ y :: ys) = (xs, y :: ys) := by
  induction xs with
  | nil => simp [spanP, hy]
  | cons c cs ih =>
    have hc := h c (by simp)
    simp [spanP, hc, ih (fun x hx => h x (by simp [hx]))]

theorem stripPre_some_drop (pre s r : List Char)
    (h : stripPre pre s = some r) : r = s.drop pre.length := by
  induction pre generalizing s with
  | nil => simp [stripPre] at h; simp [h]
  | cons p ps ih =>
    cases s with
    | nil => simp [stripPre] at h
    | cons c cs =>
      by_cases hc : c = p
      · simp [stripPre, hc] at h
        simpa using ih cs h
      · simp [stripPre, hc] at h

/-! ## C5 rotation-policy arithmetic -/

theorem tdivThreeIff (t : Int) :
    t < Int.tdiv (t + 86400000000000) 3 ↔ 2 * t ≤ 86400000000000 - 3 := by
  set D : Int := 86400000000000 with hD
  rcases le_or_lt 0 (t + D) with h | h
  · rw [Int.tdiv_eq_ediv h (by norm_num)]
    omega
  · have h1 : t + D = -(-(t + D)) := by ring
    rw [h1, Int.neg_tdiv, Int.tdiv_eq_ediv (by omega) (by norm_num)]
    omega

/-- C5: `X509Svid::needs_rotation` is true exactly when the remaining
time to expiry is below one third of the nominal lifetime window, where
the source approximates that window as remaining-time-plus-24-hours;
equivalently (second conjunct) exactly when less than about half a day
(12 hours minus one nanosecond) remains. -/
theorem x509_needs_rotation_policy (s : X509Svid) (now : Int) :
    (s.needs_rotation now = true ↔
      s.time_until_expiry now <
        Int.tdiv (s.time_until_expiry now + nanosPerDay) 3) ∧
    (s.needs_rotation now = true ↔
      2 * (s.expiry - now) ≤ nanosPerDay - 3) := by
  have hchar := tdivThreeIff (s.expiry - now)
  constructor
  · simp [X509Svid.needs_rotation, X509Svid.time_until_expiry]
  · simp only [X509Svid.needs_rotation, X509Svid.time_until_expiry,
      nanosPerDay, decide_eq_true_eq]
    exact hchar

/-- C6: `SvidBundle::needs_rotation` is true iff the X.509 document,
when present, needs proactive rotation, or some JWT in the bundle is
already expired; a JWT that is close to expiry but not expired
contributes nothing. -/
theorem svid_bundle_needs_rotation (b : SvidBundle) (now : Int) :
    b.needs_rotation now = true ↔
      ((∃ x, b.x509_svid = some x ∧ x.needs_rotation now = true) ∨
       (∃ p ∈ b.jwt_svids, p.2.is_expired now = true)) := by
  unfold SvidBundle.needs_rotation
  cases hx : b.x509_svid with
  | none => simp [List.any_eq_true]
  | some x =>
    by_cases hr : x.needs_rotation now = true
    · simp [hr]
    · simp [hr, List.any_eq_true]

/-- C1: the spire-client peer verifier's domain check on an extracted
identity URI: any string not beginning with `spiffe://` is rejected as
invalid-format; a string beginning with `spiffe://` is split at the
first slash after the prefix, and it fails with a domain-mismatch error
carrying (expected, actual) exactly when that leading component differs
from the configured trust domain, succeeding otherwise. -/
theorem verifier_domain_check (s expected : List Char) :
    (startsWithSeq (("spiffe://").toList) s = false →
      validate_spiffe_id s expected = .error .invalidFormat) ∧
    (∀ rest, stripPre (("spiffe://").toList) s = some rest →
      (validate_spiffe_id s expected =
          .error (.domainMismatch expected (uriDomainPart s)) ↔
        uriDomainPart s ≠ expected) ∧
      (uriDomainPart s = expected → validate_spiffe_id s expected = .ok ())) := by
  constructor
  · intro h
    unfold validate_spiffe_id
    cases hsp : stripPre (("spiffe://").toList) s with
    | none => rfl
    | some r =>
      unfold startsWithSeq at h
      rw [hsp] at h
      simp at h
  · intro rest hrest
    have hdrop : rest = s.drop 9 := by
      simpa using stripPre_some_drop _ _ _ hrest
    have hdom : uriDomainPart s = (spanP (fun c => !(c = '/')) rest).1 := by
      rw [uriDomainPart, hdrop]
    unfold validate_spiffe_id splitn2Slash
    cases hsp : spanP (fun c => !(c = '/')) rest with
    | mk a b =>
      rw [hsp] at hdom
      cases b with
      | nil =>
        simp only [hrest, hsp]
        by_cases he : a = expected
        · simp [hdom, he]
        · simp [hdom, he]
      | cons y ys =>
        simp only [hrest, hsp]
        by_cases he : a = expected
        · simp [hdom, he]
        · simp [hdom, he]

/-- Witness for `verifier_domain_check` at concrete inputs: an
`http://` URI is rejected as invalid format, a foreign-domain URI fails
with a domain mismatch, and a matching-domain URI is accepted. -/
theorem verifier_domain_check_witness :
    validate_spiffe_id (("http://x/y").toList) (("example.org").toList) =
      .error .invalidFormat ∧
    validate_spiffe_id (("spiffe://other.org/svc").toList)
        (("example.org").toList) =
      .error (.domainMismatch (("example.org").toList)
        (uriDomainPart (("spiffe://other.org/svc").toList))) ∧
    validate_spiffe_id (("spiffe://example.org/svc").toList)
        (("example.org").toList) = .ok () :=
  ⟨(verifier_domain_check _ _).1 (by decide),
   ((verifier_domain_check (("spiffe://other.org/svc").toList)
       (("example.org").toList)).2
     (("other.org/svc").toList) (by decide)).1.mpr (by decide),
   ((verifier_domain_check (("spiffe://example.org/svc").toList)
       (("example.org").toList)).2
     (("example.org/svc").toList) (by decide)).2 (by decide)⟩

/-! ## C7: trust bundle store -/

theorem storeGet_storeInsert_self (s : Store) (d : List Char)
    (b : TrustBundle) : storeGet (storeInsert s d b) d = some b := by
  induction s with
  | nil => simp [storeInsert, storeGet]
  | cons p rest ih =>
    by_cases hp : p.1 = d
    · simp [storeInsert, storeGet, hp]
    · simp only [storeInsert, storeGet] at ih ⊢
      simp [hp, ih]

/-- C7: `TrustBundleStore::update_if_newer` on a valid incoming bundle
whose domain is already present replaces the stored bundle and returns
true exactly when the incoming sequence number is strictly greater than
the stored one; otherwise the store is unchanged and it returns false. -/
theorem store_update_if_newer (s : Store) (b old : TrustBundle)
    (hv : b.validate = .ok ()) (hold : storeGet s b.trust_domain = some old) :
    ((update_if_newer s b).2 = .ok true ↔
      old.sequence_number < b.sequence_number) ∧
    (old.sequence_number < b.sequence_number →
      update_if_newer s b = (storeInsert s b.trust_domain b, .ok true) ∧
      storeGet (update_if_newer s b).1 b.trust_domain = some b) ∧
    (¬ old.sequence_number < b.sequence_number →
      update_if_newer s b = (s, .ok false)) := by
  unfold update_if_newer
  simp only [hv, hold]
  by_cases h : old.sequence_number < b.sequence_number
  · simp [TrustBundle.is_newer_than, h, storeGet_storeInsert_self]
  · simp [TrustBundle.is_newer_than, h]

/-- Witness for `store_update_if_newer`: a store holding a bundle for
`example.org` at sequence 1 accepts sequence 2 and then serves it, and
rejects a replay of sequence 1 unchanged. -/
theorem store_update_if_newer_witness :
    (((update_if_newer stA tbB).2 = .ok true ↔
       tbA.sequence_number < tbB.sequence_number) ∧
     (tbA.sequence_number < tbB.sequence_number →
       update_if_newer stA tbB = (storeInsert stA tbB.trust_domain tbB, .ok true) ∧
       storeGet (update_if_newer stA tbB).1 tbB.trust_domain = some tbB) ∧
     (¬ tbA.sequence_number < tbB.sequence_number →
       update_if_newer stA tbB = (stA, .ok false))) ∧
    update_if_newer stA tbA = (stA, .ok false) :=
  ⟨store_update_if_newer stA tbB tbA rfl rfl,
   (store_update_if_newer stA tbA tbA rfl rfl).2.2 (by decide)⟩

/-! ## C8: trust bundle merge -/

/-- C8: `TrustBundle::merge` fails with a `TrustBundleError` and leaves
the receiver unchanged whenever the trust domains differ; with equal
domains it replaces certificates, sequence number and update time
wholesale when the other bundle is strictly newer, and is a no-op
otherwise. -/
theorem trust_bundle_merge (a b : TrustBundle) :
    (a.trust_domain ≠ b.trust_domain →
      ∃ msg, TrustBundle.merge a b = (a, .error (.trustBundleError msg))) ∧
    (a.trust_domain = b.trust_domain →
      (a.sequence_number < b.sequence_number →
        TrustBundle.merge a b =
          ({ a with certificates := b.certificates,
                    sequence_number := b.sequence_number,
                    updated_at := b.updated_at }, .ok ())) ∧
      (¬ a.sequence_number < b.sequence_number →
        TrustBundle.merge a b = (a, .ok ()))) := by
  unfold TrustBundle.merge TrustBundle.is_newer_than
  refine ⟨?_, ?_⟩
  · intro h
    simp [h]
  · intro h
    constructor
    · intro hlt
      simp [h, hlt]
    · intro hge
      simp [h, hge]

/-- Witness for `trust_bundle_merge`: merging `other.org` into
`example.org` fails without mutation; merging a newer same-domain
bundle replaces the versioned fields; merging an older one is a no-op. -/
theorem trust_bundle_merge_witness :
    (∃ msg, TrustBundle.merge tbA tbC = (tbA, .error (.trustBundleError msg))) ∧
    TrustBundle.merge tbA tbB =
      ({ tbA with certificates := tbB.certificates,
                  sequence_number := tbB.sequence_number,
                  updated_at := tbB.updated_at }, .ok ()) ∧
    TrustBundle.merge tbB tbA = (tbB, .ok ()) :=
  ⟨(trust_bundle_merge tbA tbC).1 (by decide),
   ((trust_bundle_merge tbA tbB).2 rfl).1 (by decide),
   ((trust_bundle_merge tbB tbA).2 rfl).2 (by decide)⟩

/-! ## C9: mTLS configuration rotation -/

/-- C9: `MtlsConfig::update_svid` rejects an already-expired SVID with
the expired-credential validation error; on any failure the
configuration (client policy, server policy, identity) is left exactly
as it was; on success all three are replaced together from the new SVID
and bundle. -/
theorem mtls_update_svid (eng : TlsEngine) (cfg : MtlsConfig)
    (svid : X509Svid) (tb : TrustBundle) (now : Int) :
    (svid.is_expired now = true →
      MtlsConfig.update_svid eng cfg svid tb now =
        (cfg, .error (.validationError
          (("Cannot update with expired SVID").toList)))) ∧
    (∀ e, (MtlsConfig.update_svid eng cfg svid tb now).2 = .error e →
      (MtlsConfig.update_svid eng cfg svid tb now).1 = cfg) ∧
    (∀ cc sc, svid.is_expired now = false →
      build_client_config eng svid tb = .ok cc →
      build_server_config eng svid tb = .ok sc →
      MtlsConfig.update_svid eng cfg svid tb now =
        ({ client_config := cc, server_config := some sc,
           spiffe_id := svid.spiffe_id }, .ok ())) := by
  refine ⟨?_, ?_, ?_⟩
  · intro h
    unfold MtlsConfig.update_svid
    simp [h]
  · intro e
    unfold MtlsConfig.update_svid
    by_cases h : svid.is_expired now = true
    · simp [h]
    · simp only [Bool.not_eq_true] at h
      cases hc : build_client_config eng svid tb with
      | error e1 => simp [h, hc]
      | ok cc =>
        cases hs : build_server_config eng svid tb with
        | error e2 => simp [h, hc, hs]
        | ok sc => simp [h, hc, hs]
  · intro cc sc hexp hc hs
    unfold MtlsConfig.update_svid
    simp [hexp, hc, hs]

/-- Witness for `mtls_update_svid`: updating with an SVID expired at
time 0 fails and leaves the configuration untouched; updating with a
fresh SVID installs the newly built client and server policies and the
new identity. -/
theorem mtls_update_svid_witness :
    MtlsConfig.update_svid engAll cfg0 svidOld tbA 0 =
      (cfg0, .error (.validationError
        (("Cannot update with expired SVID").toList))) ∧
    MtlsConfig.update_svid engAll cfg0 svidFresh tbA 0 =
      ({ client_config := { roots := tbA.certificates,
                            chain := svidFresh.cert_chain,
                            key := svidFresh.private_key },
         server_config := some { roots := tbA.certificates,
                                 chain := svidFresh.cert_chain,
                                 key := svidFresh.private_key },
         spiffe_id := svidFresh.spiffe_id }, .ok ()) :=
  ⟨(mtls_update_svid engAll cfg0 svidOld tbA 0).1 (by decide),
   (mtls_update_svid engAll cfg0 svidFresh tbA 0).2.2 _ _ (by decide) rfl rfl⟩

/-! ## C10: the peer validator ignores certificate bytes -/

/-- C10: `MtlsValidator::validate_peer_cert` never inspects the
certificate bytes: any two non-empty chains give identical results, the
extracted identity is always the constant `spiffe://example.org/peer/service`,
acceptance depends only on the expected-ID list, and the only
chain-dependent failure is the empty chain. -/
theorem mtls_validator_constant (v : MtlsValidator) :
    (∀ c1 c2, c1 ≠ [] → c2 ≠ [] →
      v.validate_peer_cert c1 = v.validate_peer_cert c2) ∧
    v.validate_peer_cert [] =
      .error (.validationError (("Peer certificate chain is empty").toList)) ∧
    (∀ chain : List (List Nat), chain ≠ [] → ∃ peer,
      SpiffeId.new (("example.org").toList) (("/peer/service").toList) =
        .ok peer ∧
      MtlsValidator.extract_spiffe_id v (chain.headD []) = .ok peer ∧
      v.validate_peer_cert chain =
        (if !(v.expected_spiffe_ids.isEmpty) &&
            !(v.expected_spiffe_ids.contains peer) then
          .error (.validationError (("Unexpected SPIFFE ID").toList))
        else .ok peer)) := by
  obtain ⟨peer, hpeer⟩ : ∃ p,
      SpiffeId.new (("example.org").toList) (("/peer/service").toList) =
        .ok p := ⟨_, rfl⟩
  have key : ∀ chain : List (List Nat), chain ≠ [] →
      v.validate_peer_cert chain =
        (if !(v.expected_spiffe_ids.isEmpty) &&
            !(v.expected_spiffe_ids.contains peer) then
          .error (.validationError (("Unexpected SPIFFE ID").toList))
        else .ok peer) := by
    intro chain hc
    cases chain with
    | nil => exact absurd rfl hc
    | cons l ls =>
      unfold MtlsValidator.validate_peer_cert MtlsValidator.extract_spiffe_id
      rw [hpeer]
  refine ⟨?_, rfl, ?_⟩
  · intro c1 c2 h1 h2
    rw [key c1 h1, key c2 h2]
  · intro chain hc
    refine ⟨peer, hpeer, ?_, key chain hc⟩
    unfold MtlsValidator.extract_spiffe_id
    exact hpeer

/-- Witness for `mtls_validator_constant`: with no expected IDs two
different chains both yield the constant identity; with an expected
list not containing the constant identity, a non-empty chain is
rejected independently of its bytes. -/
theorem mtls_validator_constant_witness :
    MtlsValidator.validate_peer_cert mvNone [[7]] =
      MtlsValidator.validate_peer_cert mvNone [[8], [9]] ∧
    (∃ peer,
      SpiffeId.new (("example.org").toList) (("/peer/service").toList) =
        .ok peer ∧
      MtlsValidator.extract_spiffe_id mvWeb (([[7]] : List (List Nat)).headD []) =
        .ok peer ∧
      MtlsValidator.validate_peer_cert mvWeb [[7]] =
        (if !(mvWeb.expected_spiffe_ids.isEmpty) &&
            !(mvWeb.expected_spiffe_ids.contains peer) then
          .error (.validationError (("Unexpected SPIFFE ID").toList))
        else .ok peer)) :=
  ⟨(mtls_validator_constant mvNone).1 [[7]] [[8], [9]] (by decide) (by decide),
   (mtls_validator_constant mvWeb).2.2 [[7]] (by decide)⟩

/-! ## Split/join/dot-segment lemmas for the URL path model -/

theorem splitOnChar_ne_nil (sep : Char) (s : List Char) :
    splitOnChar sep s ≠ [] := by
  cases s with
  | nil => simp [splitOnChar]
  | cons c cs =>
    by_cases h : c = sep
    · simp [splitOnChar, h]
    · simp only [splitOnChar, if_neg h]
      cases splitOnChar sep cs <;> simp

theorem joinChar_splitOnChar (sep : Char) (s : List Char) :
    joinChar sep (splitOnChar sep s) = s := by
  induction s with
  | nil => rfl
  | cons c cs ih =>
    by_cases h : c = sep
    · simp only [splitOnChar, if_pos h]
      cases hs : splitOnChar sep cs with
      | nil => exact absurd hs (splitOnChar_ne_nil sep cs)
      | cons a rest =>
        rw [hs] at ih
        show [] ++ sep :: joinChar sep (a :: rest) = c :: cs
        rw [ih, h]
        rfl
    · simp only [splitOnChar, if_neg h]
      cases hs : splitOnChar sep cs with
      | nil => exact absurd hs (splitOnChar_ne_nil sep cs)
      | cons a rest =>
        rw [hs] at ih
        cases rest with
        | nil =>
          show c :: a = c :: cs
          have ha : a = cs := ih
          rw [ha]
        | cons b r2 =>
          show (c :: a) ++ sep :: joinChar sep (b :: r2) = c :: cs
          rw [← ih]
          rfl

theorem splitOnChar_of_no_sep (sep : Char) (s : List Char)
    (h : ∀ c ∈ s, c ≠ sep) : splitOnChar sep s = [s] := by
  induction s with
  | nil => rfl
  | cons c cs ih =>
    have hc : c ≠ sep := h c (by simp)
    simp only [splitOnChar, if_neg hc]
    rw [ih (fun x hx => h x (by simp [hx]))]

theorem splitOnChar_append_sep (sep : Char) (x t : List Char)
    (h : ∀ c ∈ x, c ≠ sep) :
    splitOnChar sep (x ++ sep :: t) = x :: splitOnChar sep t := by
  induction x with
  | nil => simp [splitOnChar]
  | cons c cs ih =>
    have hc : c ≠ sep := h c (by simp)
    show splitOnChar sep (c :: (cs ++ sep :: t)) = (c :: cs) :: splitOnChar sep t
    simp only [splitOnChar, if_neg hc]
    rw [ih (fun y hy => h y (by simp [hy]))]

theorem splitOnChar_joinChar (sep : Char) (out : List (List Char))
    (hne : out ≠ []) (h : ∀ seg ∈ out, ∀ c ∈ seg, c ≠ sep) :
    splitOnChar sep (joinChar sep out) = out := by
  induction out with
  | nil => exact absurd rfl hne
  | cons a rest ih =>
    cases rest with
    | nil =>
      show splitOnChar sep a = [a]
      exact splitOnChar_of_no_sep sep a (h a (by simp))
    | cons b r2 =>
      show splitOnChar sep (a ++ sep :: joinChar sep (b :: r2)) = a :: b :: r2
      rw [splitOnChar_append_sep sep a _ (h a (by simp))]
      rw [ih (by simp) (fun seg hs c hc => h seg (by simp [hs]) c hc)]

theorem splitOnChar_mem_no_sep (sep : Char) (s : List Char) :
    ∀ seg ∈ splitOnChar sep s, ∀ c ∈ seg, c ≠ sep := by
  induction s with
  | nil =>
    intro seg hs
    simp [splitOnChar] at hs
    subst hs
    simp
  | cons c cs ih =>
    intro seg hs
    by_cases h : c = sep
    · simp only [splitOnChar, if_pos h, List.mem_cons] at hs
      rcases hs with hs | hs
      · subst hs; simp
      · exact ih seg hs
    · simp only [splitOnChar, if_neg h] at hs
      cases hsp : splitOnChar sep cs with
      | nil => exact absurd hsp (splitOnChar_ne_nil sep cs)
      | cons a rest =>
        rw [hsp] at hs
        simp only [List.mem_cons] at hs
        rcases hs with hs | hs
        · subst hs
          intro x hx
          simp only [List.mem_cons] at hx
          rcases hx with hx | hx
          · subst hx; exact h
          · exact ih a (by rw [hsp]; simp) x hx
        · exact ih seg (by rw [hsp]; simp [hs])

theorem dotProcess_id (segs : List (List Char)) :
    ∀ acc, (∀ seg ∈ segs, seg ≠ dotSeg ∧ seg ≠ dotDotSeg) →
      dotProcess acc segs = acc ++ segs := by
  induction segs with
  | nil => intro acc _; simp [dotProcess]
  | cons s rest ih =>
    intro acc h
    have hs := h s (by simp)
    simp only [dotProcess, if_neg hs.2, if_neg hs.1]
    cases rest with
    | nil => simp
    | cons b r2 =>
      simp only [List.isEmpty_cons, Bool.false_eq_true, if_false]
      rw [ih (acc ++ [s]) (fun seg hseg => h seg (by simp [hseg]))]
      simp

theorem dotProcess_ne_nil (segs : List (List Char)) :
    ∀ acc, segs ≠ [] → dotProcess acc segs ≠ [] := by
  induction segs with
  | nil => intro acc h; exact absurd rfl h
  | cons s rest ih =>
    intro acc _
    simp only [dotProcess]
    by_cases h2 : s = dotDotSeg
    · simp only [if_pos h2]
      cases rest with
      | nil => simp
      | cons b r2 => simp only [List.isEmpty_cons, Bool.false_eq_true, if_false]
                     exact ih _ (by simp)
    · simp only [if_neg h2]
      by_cases h1 : s = dotSeg
      · simp only [if_pos h1]
        cases rest with
        | nil => simp
        | cons b r2 => simp only [List.isEmpty_cons, Bool.false_eq_true, if_false]
                       exact ih _ (by simp)
      · simp only [if_neg h1]
        cases rest with
        | nil => simp
        | cons b r2 => simp only [List.isEmpty_cons, Bool.false_eq_true, if_false]
                       exact ih _ (by simp)

theorem dotProcess_no_dotdot (segs : List (List Char)) :
    ∀ acc, (∀ a ∈ acc, a ≠ dotDotSeg) →
      ∀ e ∈ dotProcess acc segs, e ≠ dotDotSeg := by
  induction segs with
  | nil => intro acc hacc e he; exact hacc e (by simpa [dotProcess] using he)
  | cons s rest ih =>
    intro acc hacc e he
    have hdrop : ∀ a ∈ acc.dropLast, a ≠ dotDotSeg :=
      fun a ha => hacc a (List.dropLast_subset _ ha)
    simp only [dotProcess] at he
    by_cases h2 : s = dotDotSeg
    · rw [if_pos h2] at he
      cases rest with
      | nil =>
        simp only [List.isEmpty_nil, if_true] at he
        simp only [List.mem_append, List.mem_singleton] at he
        rcases he with he | he
        · exact hdrop e he
        · subst he; simp [dotDotSeg]
      | cons b r2 =>
        simp only [List.isEmpty_cons, Bool.false_eq_true, if_false] at he
        exact ih _ hdrop e he
    · rw [if_neg h2] at he
      by_cases h1 : s = dotSeg
      · rw [if_pos h1] at he
        cases rest with
        | nil =>
          simp only [List.isEmpty_nil, if_true] at he
          simp only [List.mem_append, List.mem_singleton] at he
          rcases he with he | he
          · exact hacc e he
          · subst he; simp [dotDotSeg]
        | cons b r2 =>
          simp only [List.isEmpty_cons, Bool.false_eq_true, if_false] at he
          exact ih _ hacc e he
      · rw [if_neg h1] at he
        have hpush : ∀ a ∈ acc ++ [s], a ≠ dotDotSeg := by
          intro a ha
          simp only [List.mem_append, List.mem_singleton] at ha
          rcases ha with ha | ha
          · exact hacc a ha
          · subst ha; exact h2
        cases rest with
        | nil =>
          simp only [List.isEmpty_nil, if_true] at he
          exact hpush e he
        | cons b r2 =>
          simp only [List.isEmpty_cons, Bool.false_eq_true, if_false] at he
          exact ih _ hpush e he

theorem dotProcess_mem (segs : List (List Char)) :
    ∀ acc e, e ∈ dotProcess acc segs → e ∈ acc ∨ e ∈ segs ∨ e = [] := by
  induction segs with
  | nil => intro acc e he; exact .inl (by simpa [dotProcess] using he)
  | cons s rest ih =>
    intro acc e he
    simp only [dotProcess] at he
    by_cases h2 : s = dotDotSeg
    · rw [if_pos h2] at he
      cases rest with
      | nil =>
        simp only [List.isEmpty_nil, if_true, List.mem_append,
          List.mem_singleton] at he
        rcases he with he | he
        · exact .inl (List.dropLast_subset _ he)
        · exact .inr (.inr he)
      | cons b r2 =>
        simp only [List.isEmpty_cons, Bool.false_eq_true, if_false] at he
        rcases ih _ e he with h | h | h
        · exact .inl (List.dropLast_subset _ h)
        · exact .inr (.inl (by simp [h]))
        · exact .inr (.inr h)
    · rw [if_neg h2] at he
      by_cases h1 : s = dotSeg
      · rw [if_pos h1] at he
        cases rest with
        | nil =>
          simp only [List.isEmpty_nil, if_true, List.mem_append,
            List.mem_singleton] at he
          rcases he with he | he
          · exact .inl he
          · exact .inr (.inr he)
        | cons b r2 =>
          simp only [List.isEmpty_cons, Bool.false_eq_true, if_false] at he
          rcases ih _ e he with h | h | h
          · exact .inl h
          · exact .inr (.inl (by simp [h]))
          · exact .inr (.inr h)
      · rw [if_neg h1] at he
        cases rest with
        | nil =>
          simp only [List.isEmpty_nil, if_true, List.mem_append,
            List.mem_singleton] at he
          rcases he with he | he
          · exact .inl he
          · exact .inr (.inl (by simp [he]))
        | cons b r2 =>
          simp only [List.isEmpty_cons, Bool.false_eq_true, if_false] at he
          rcases ih _ e he with h | h | h
          · simp only [List.mem_append, List.mem_singleton] at h
            rcases h with h | h
            · exact .inl h
            · exact .inr (.inl (by simp [h]))
          · exact .inr (.inl (by simp [h]))
          · exact .inr (.inr h)

/-- Facts about every normalized non-empty path the URL model can
produce: it begins with a slash and contains no double-dot segment. -/
theorem normPath_spec (x : List Char) :
    (normPath x).head? = some '/' ∧
    ∀ seg ∈ splitOnChar '/' ((normPath x).drop 1), seg ≠ dotDotSeg := by
  refine ⟨rfl, ?_⟩
  intro seg hseg
  unfold normPath at hseg
  simp only [List.drop_succ_cons, List.drop_zero] at hseg
  have hne : dotProcess [] (splitOnChar '/' (x.drop 1)) ≠ [] :=
    dotProcess_ne_nil _ _ (splitOnChar_ne_nil _ _)
  have hnosep : ∀ e ∈ dotProcess [] (splitOnChar '/' (x.drop 1)),
      ∀ c ∈ e, c ≠ '/' := by
    intro e he c hc
    rcases dotProcess_mem _ _ e he with h | h | h
    · simp at h
    · exact splitOnChar_mem_no_sep '/' _ e h c hc
    · subst h; simp at hc
  rw [splitOnChar_joinChar '/' _ hne hnosep] at hseg
  exact dotProcess_no_dotdot _ _ (by simp) seg hseg

/-! ## Character-class lemmas -/

theorem alphanum_no_forbidden (c : Char) (hA : c.isAlphanum = true) :
    forbiddenHostChar c = false := by
  have hne : ∀ x : Char, x.isAlphanum = false → c ≠ x := by
    intro x hx he
    rw [he] at hA
    rw [hA] at hx
    exact absurd hx (by decide)
  unfold forbiddenHostChar
  simp [hne '\x00' (by decide), hne '\t' (by decide), hne '\n' (by decide),
    hne '\r' (by decide), hne ' ' (by decide), hne '#' (by decide),
    hne '/' (by decide), hne ':' (by decide), hne '<' (by decide),
    hne '>' (by decide), hne '?' (by decide), hne '@' (by decide),
    hne '[' (by decide), hne '\\' (by decide), hne ']' (by decide),
    hne '^' (by decide), hne '|' (by decide)]

theorem hostSafe_no_forbidden (c : Char) (hc : hostSafeChar c = true) :
    forbiddenHostChar c = false := by
  unfold hostSafeChar at hc
  simp only [Bool.or_eq_true, decide_eq_true_eq] at hc
  rcases hc with ((hA | h) | h) | h
  · exact alphanum_no_forbidden c hA
  all_goals (subst h; decide)

theorem hostSafe_ne (c x : Char) (hc : hostSafeChar c = true)
    (hx : forbiddenHostChar x = true) : c ≠ x := by
  intro he
  subst he
  rw [hostSafe_no_forbidden c hc] at hx
  exact Bool.false_ne_true hx

theorem hostSafe_not_delim1 (c : Char) (hc : hostSafeChar c = true) :
    (!(c = '/' || c = '?' || c = '#')) = true := by
  have h1 := hostSafe_ne c '/' hc (by decide)
  have h2 := hostSafe_ne c '?' hc (by decide)
  have h3 := hostSafe_ne c '#' hc (by decide)
  simp [h1, h2, h3]

theorem pathSafe_not_qf (c : Char) (hc : pathSafeChar c = true) :
    (!(c = '?' || c = '#')) = true := by
  by_cases h1 : c = '?'
  · subst h1; exact absurd hc (by decide)
  · by_cases h2 : c = '#'
    · subst h2; exact absurd hc (by decide)
    · simp [h1, h2]

theorem afterLastAt_no_at (s : List Char) (h : ∀ c ∈ s, c ≠ '@') :
    afterLastAt s = s := by
  unfold afterLastAt
  rw [splitOnChar_of_no_sep '@' s h]
  rfl

/-! ## Computation of `parseUrl` on well-formed spiffe URLs -/

theorem parseUrl_spiffe_prefix (tail : List Char) :
    parseUrl (("spiffe://").toList ++ tail) =
      parseAfterSlashes (("spiffe").toList) tail := rfl

theorem hostSpan_no_colon (d : List Char) (h : ∀ c ∈ d, c ≠ ':') :
    ∀ inside, hostSpan inside d = (d, []) := by
  induction d with
  | nil => intro inside; rfl
  | cons c cs ih =>
    intro inside
    have hc : c ≠ ':' := h c (by simp)
    simp only [hostSpan]
    rw [if_neg (by simp [hc])]
    simp [ih (fun x hx => h x (by simp [hx]))]

theorem parseAfterSlashes_spiffe (d pt : List Char) (hd0 : d ≠ [])
    (hdsafe : ∀ c ∈ d, hostSafeChar c = true)
    (hpsafe : ∀ c ∈ pt, pathSafeChar c = true)
    (hnd : ∀ seg ∈ splitOnChar '/' pt, seg ≠ dotSeg ∧ seg ≠ dotDotSeg) :
    parseAfterSlashes (("spiffe").toList) (d ++ '/' :: pt) =
      some { scheme := ("spiffe").toList, host := some d, port := none,
             path := '/' :: pt, rest := [] } := by
  have hq1 : spanP (fun c => !(c = '/' || c = '?' || c = '#')) (d ++ '/' :: pt) =
      (d, '/' :: pt) :=
    spanP_append_stop _ d '/' pt
      (fun c hc => hostSafe_not_delim1 c (hdsafe c hc)) (by decide)
  have hat : afterLastAt d = d :=
    afterLastAt_no_at d (fun c hc => hostSafe_ne c '@' (hdsafe c hc) (by decide))
  have hcreds : d.any (fun c => decide (c = '@')) = false := by
    rw [List.any_eq_false]
    intro c hc
    simp [hostSafe_ne c '@' (hdsafe c hc) (by decide)]
  have hq2 : hostSpan false d = (d, []) :=
    hostSpan_no_colon d
      (fun c hc => hostSafe_ne c ':' (hdsafe c hc) (by decide)) false
  have hforb : d.any forbiddenHostChar = false := by
    rw [List.any_eq_false]
    intro c hc
    simp [hostSafe_no_forbidden c (hdsafe c hc)]
  have hhead : ¬ d.head? = some '[' := by
    cases d with
    | nil => simp
    | cons a tl =>
      simp only [List.head?_cons, Option.some.injEq]
      intro ha
      subst ha
      exact absurd (hdsafe '[' (by simp)) (by decide)
  have hrej : hostRejected d = false := by
    unfold hostRejected
    rw [if_neg hhead]
    exact hforb
  have hq3 : spanP (fun c => !(c = '?' || c = '#')) ('/' :: pt) =
      ('/' :: pt, []) :=
    spanP_all _ _ (by
      intro c hc
      simp only [List.mem_cons] at hc
      rcases hc with hc | hc
      · subst hc; decide
      · exact pathSafe_not_qf c (hpsafe c hc))
  have hde : d.isEmpty = false := by
    cases d with
    | nil => exact absurd rfl hd0
    | cons a b => rfl
  have hnorm : normPath ('/' :: pt) = '/' :: pt := by
    unfold normPath
    simp only [List.drop_succ_cons, List.drop_zero]
    rw [dotProcess_id _ [] hnd]
    simp [joinChar_splitOnChar]
  unfold parseAfterSlashes
  rw [hq1]
  simp only [hat, hcreds]
  rw [hq2]
  simp only [hrej, Bool.false_eq_true, if_false, hde, Bool.false_and,
    Bool.and_false]
  unfold mkAuthorityUrl
  rw [hq3]
  simp only [hnorm]

theorem parseUrl_spiffe (d pp : List Char) (hd0 : d ≠ [])
    (hdsafe : ∀ c ∈ d, hostSafeChar c = true)
    (hps : pp.head? = some '/')
    (hpsafe : ∀ c ∈ pp, pathSafeChar c = true)
    (hnd : ∀ seg ∈ splitOnChar '/' (pp.drop 1),
      seg ≠ dotSeg ∧ seg ≠ dotDotSeg) :
    parseUrl (("spiffe://").toList ++ d ++ pp) =
      some { scheme := ("spiffe").toList, host := some d, port := none,
             path := pp, rest := [] } := by
  obtain ⟨pt, rfl⟩ : ∃ pt, pp = '/' :: pt := by
    cases pp with
    | nil => simp at hps
    | cons c cs =>
      simp only [List.head?_cons, Option.some.injEq] at hps
      exact ⟨cs, by rw [hps]⟩
  rw [List.append_assoc, parseUrl_spiffe_prefix]
  exact parseAfterSlashes_spiffe d pt hd0 hdsafe
    (fun c hc => hpsafe c (by simp [hc]))
    (by simpa using hnd)

/-! ## Shape lemmas for parse results -/

theorem normSlash_head (p : List Char) : (normSlash p).head? = some '/' := by
  unfold normSlash
  by_cases h : p.head? = some '/'
  · rw [if_neg (by simp [h])]
    exact h
  · rw [if_pos (by simp [h])]
    rfl

theorem normSlash_ne_nil (p : List Char) : normSlash p ≠ [] := by
  intro he
  have h := normSlash_head p
  rw [he] at h
  exact absurd h (by simp)

theorem mkAuthorityUrl_shape (sch host : List Char) (port : Option Nat)
    (tail : List Char) :
    (mkAuthorityUrl sch host port tail).host = some host ∧
    ((mkAuthorityUrl sch host port tail).path = [] ∨
      ∃ x, (mkAuthorityUrl sch host port tail).path = normPath x) := by
  unfold mkAuthorityUrl
  cases hsp : spanP (fun c => !(c = '?' || c = '#')) tail with
  | mk pr rest =>
    cases pr with
    | nil => exact ⟨rfl, .inl rfl⟩
    | cons a b => exact ⟨rfl, .inr ⟨a :: b, rfl⟩⟩

theorem ipv6Tail_mem (l : List Char) (h : ipv6Tail l = true) :
    ∀ c ∈ l, isIpv6Char c = true ∨ c = ']' := by
  induction l with
  | nil => simp [ipv6Tail] at h
  | cons a tl ih =>
    cases tl with
    | nil =>
      intro c hc
      simp only [List.mem_singleton] at hc
      subst hc
      simp only [ipv6Tail] at h
      right
      simpa using h
    | cons b tl2 =>
      intro c hc
      simp only [ipv6Tail, Bool.and_eq_true] at h
      rcases List.mem_cons.mp hc with hc | hc
      · subst hc
        exact .inl h.1
      · exact ih h.2 c hc

theorem bracketHostOk_mem (h : List Char) (hb : bracketHostOk h = true) :
    ∀ c ∈ h, c = '[' ∨ isIpv6Char c = true ∨ c = ']' := by
  cases h with
  | nil => simp [bracketHostOk] at hb
  | cons a tl =>
    cases tl with
    | nil => simp [bracketHostOk] at hb
    | cons b tl2 =>
      simp only [bracketHostOk, Bool.and_eq_true, decide_eq_true_eq] at hb
      intro c hc
      rcases List.mem_cons.mp hc with hc | hc
      · subst hc
        exact .inl hb.1.1
      · rcases ipv6Tail_mem (b :: tl2) hb.2 c hc with h1 | h1
        · exact .inr (.inl h1)
        · exact .inr (.inr h1)

/-- An accepted host contains no slash, and can contain a colon only
when it is a bracketed IPv6 literal (so it begins with `[`). -/
theorem hostRejected_false_facts (hst : List Char)
    (h : hostRejected hst = false) :
    '/' ∉ hst ∧ (':' ∈ hst → hst.head? = some '[') := by
  unfold hostRejected at h
  by_cases hh : hst.head? = some '['
  · rw [if_pos hh] at h
    have hb : bracketHostOk hst = true := by
      cases hbo : bracketHostOk hst
      · rw [hbo] at h
        simp at h
      · rfl
    constructor
    · intro hmem
      rcases bracketHostOk_mem hst hb '/' hmem with h1 | h1 | h1
      · exact absurd h1 (by decide)
      · exact absurd h1 (by decide)
      · exact absurd h1 (by decide)
    · intro _
      exact hh
  · rw [if_neg hh] at h
    rw [List.any_eq_false] at h
    constructor
    · intro hmem
      exact h '/' hmem (by decide)
    · intro hmem
      exact absurd (by decide : forbiddenHostChar ':' = true) (h ':' hmem)

theorem parseAfterSlashes_shape (sch s : List Char) (u : Url)
    (hu : parseAfterSlashes sch s = some u) :
    ∃ hst, u.host = some hst ∧ hostRejected hst = false ∧
      (u.path = [] ∨ ∃ x, u.path = normPath x) := by
  unfold parseAfterSlashes at hu
  cases hq1 : spanP (fun c => !(c = '/' || c = '?' || c = '#')) s with
  | mk auth tail =>
    rw [hq1] at hu
    simp only [] at hu
    cases hq2 : hostSpan false (afterLastAt auth) with
    | mk host portPart =>
      rw [hq2] at hu
      by_cases hrej : hostRejected host = true
      · rw [if_pos hrej] at hu; exact absurd hu (by simp)
      · rw [if_neg hrej] at hu
        rw [Bool.not_eq_true] at hrej
        cases portPart with
        | nil =>
          simp only [] at hu
          by_cases hcr : (host.isEmpty && auth.any (fun c => c = '@')) = true
          · rw [if_pos hcr] at hu; exact absurd hu (by simp)
          · rw [if_neg hcr] at hu
            injection hu with h2
            subst h2
            obtain ⟨hh, hp⟩ := mkAuthorityUrl_shape sch host none tail
            exact ⟨host, hh, hrej, hp⟩
        | cons c0 digits =>
          simp only [] at hu
          by_cases hdig : digits.isEmpty = true
          · rw [if_pos hdig] at hu
            by_cases hcr : (host.isEmpty && auth.any (fun c => c = '@')) = true
            · rw [if_pos hcr] at hu; exact absurd hu (by simp)
            · rw [if_neg hcr] at hu
              injection hu with h2
              subst h2
              obtain ⟨hh, hp⟩ := mkAuthorityUrl_shape sch host none tail
              exact ⟨host, hh, hrej, hp⟩
          · rw [if_neg hdig] at hu
            by_cases hall : digits.all Char.isDigit = true
            · rw [if_pos hall] at hu
              by_cases hhe : host.isEmpty = true
              · rw [if_pos hhe] at hu; exact absurd hu (by simp)
              · rw [if_neg hhe] at hu
                by_cases hlt : digitsToNat digits 0 < 65536
                · rw [if_pos hlt] at hu
                  injection hu with h2
                  subst h2
                  obtain ⟨hh, hp⟩ :=
                    mkAuthorityUrl_shape sch host (some (digitsToNat digits 0)) tail
                  exact ⟨host, hh, hrej, hp⟩
                · rw [if_neg hlt] at hu; exact absurd hu (by simp)
            · rw [if_neg hall] at hu; exact absurd hu (by simp)

theorem parseUrl_some_shape (s : List Char) (u : Url)
    (hu : parseUrl s = some u) (hst : List Char) (hh : u.host = some hst) :
    hostRejected hst = false ∧
    (u.path = [] ∨ ∃ x, u.path = normPath x) := by
  unfold parseUrl at hu
  split at hu
  · split at hu
    · split at hu
      · obtain ⟨h2, hh2, hrej, hshape⟩ := parseAfterSlashes_shape _ _ _ hu
        rw [hh] at hh2
        injection hh2 with h3
        subst h3
        exact ⟨hrej, hshape⟩
      · injection hu with h4
        rw [← h4] at hh
        simp at hh
    · exact absurd hu (by simp)
  · exact absurd hu (by simp)

/-- Inversion of a successful `SpiffeId::new`: the guards that must
have passed and the stored fields. -/
theorem SpiffeId_new_ok_inv (d p : List Char) (id : SpiffeId)
    (hid : SpiffeId.new d p = .ok id) :
    d ≠ [] ∧ d.contains '/' = false ∧ d.contains ':' = false ∧ p ≠ [] ∧
    ∃ u, parseUrl (("spiffe://").toList ++ d ++ normSlash p) = some u ∧
      id = { trust_domain := d, path := normSlash p, raw_url := u } := by
  unfold SpiffeId.new at hid
  by_cases h1 : d.isEmpty = true
  · rw [if_pos h1] at hid; exact absurd hid (by simp)
  · rw [if_neg h1] at hid
    by_cases h2 : (d.contains '/' || d.contains ':') = true
    · rw [if_pos h2] at hid; exact absurd hid (by simp)
    · rw [if_neg h2] at hid
      by_cases h3 : p.isEmpty = true
      · rw [if_pos h3] at hid; exact absurd hid (by simp)
      · rw [if_neg h3] at hid
        simp only [] at hid
        cases hpu : parseUrl (("spiffe://").toList ++ d ++ normSlash p) with
        | none => rw [hpu] at hid; exact absurd hid (by simp)
        | some u =>
          rw [hpu] at hid
          simp only [] at hid
          by_cases h4 : u.scheme = ("spiffe").toList
          · rw [if_neg (by simp [h4])] at hid
            by_cases h5 : u.host.isNone = true
            · rw [if_pos h5] at hid; exact absurd hid (by simp)
            · rw [if_neg h5] at hid
              injection hid with h6
              simp only [Bool.or_eq_true, not_or, Bool.not_eq_true] at h2
              refine ⟨?_, h2.1, h2.2, ?_, u, rfl, h6.symm⟩
              · intro he; rw [he] at h1; exact h1 rfl
              · intro he; rw [he] at h3; exact h3 rfl
          · rw [if_pos (by simpa using h4)] at hid
            exact absurd hid (by simp)

/-- Inversion of a successful `SpiffeId::parse`. -/
theorem SpiffeId_parse_ok_inv (s : List Char) (id : SpiffeId)
    (hid : SpiffeId.parse s = .ok id) : ∃ u h,
    parseUrl s = some u ∧ u.scheme = ("spiffe").toList ∧ u.host = some h ∧
    h ≠ [] ∧ u.path ≠ [] ∧ u.path ≠ ['/'] ∧
    id = { trust_domain := h, path := u.path, raw_url := u } := by
  unfold SpiffeId.parse at hid
  cases hu : parseUrl s with
  | none => rw [hu] at hid; exact absurd hid (by simp)
  | some u =>
    rw [hu] at hid
    simp only [] at hid
    by_cases hs : u.scheme = ("spiffe").toList
    · rw [if_neg (by simp [hs])] at hid
      cases hh : u.host with
      | none => rw [hh] at hid; exact absurd hid (by simp)
      | some h =>
        rw [hh] at hid
        simp only [] at hid
        by_cases hhe : h = []
        · rw [if_pos (by simp [hhe])] at hid
          exact absurd hid (by simp)
        · rw [if_neg (by simp [hhe])] at hid
          by_cases hpe : u.path = []
          · rw [if_pos (by simp [hpe])] at hid
            exact absurd hid (by simp)
          · by_cases hpr : u.path = ['/']
            · rw [if_pos (by simp [hpr])] at hid
              exact absurd hid (by simp)
            · rw [if_neg (by simp [hpe, hpr])] at hid
              refine ⟨u, h, rfl, hs, hh, hhe, hpe, hpr, ?_⟩
              injection hid with h3
              exact h3.symm
    · rw [if_pos (by simpa using hs)] at hid
      exact absurd hid (by simp)

/-- A successful `SpiffeId::parse` from known URL-parse facts. -/
theorem SpiffeId_parse_ok_intro (s : List Char) (u : Url) (h : List Char)
    (hu : parseUrl s = some u) (hs : u.scheme = ("spiffe").toList)
    (hh : u.host = some h) (hne : h ≠ []) (hp1 : u.path ≠ [])
    (hp2 : u.path ≠ ['/']) :
    SpiffeId.parse s =
      .ok { trust_domain := h, path := u.path, raw_url := u } := by
  unfold SpiffeId.parse
  rw [hu]
  simp only []
  rw [if_neg (by simp [hs]), hh]
  simp only []
  rw [if_neg (by simp [hne]), if_neg (by simp [hp1, hp2])]

/-! ## C4: `SpiffeId::parse` acceptance conditions -/

/-- C4: `SpiffeId::parse` fails with an identity-format error whenever
the parsed URL's scheme is not `spiffe`, whenever there is no (or an
empty) trust domain, and whenever the path is empty or root-only; it
succeeds exactly when scheme is `spiffe`, the host is non-empty, and
the path is non-empty and not `/`.  The last three conjuncts evaluate
the listed concrete rejected inputs. -/
theorem spiffe_parse_conditions (s : List Char) :
    (∀ u, parseUrl s = some u → ¬ u.scheme = ("spiffe").toList →
      ∃ m, SpiffeId.parse s = .error (.invalidSpiffeId m)) ∧
    (∀ u, parseUrl s = some u → (u.host = none ∨ u.host = some []) →
      ∃ m, SpiffeId.parse s = .error (.invalidSpiffeId m)) ∧
    (∀ u h, parseUrl s = some u → u.host = some h →
      (u.path = [] ∨ u.path = ['/']) →
      ∃ m, SpiffeId.parse s = .error (.invalidSpiffeId m)) ∧
    (∀ id, SpiffeId.parse s = .ok id → ∃ u h,
      parseUrl s = some u ∧ u.scheme = ("spiffe").toList ∧ u.host = some h ∧
      h ≠ [] ∧ u.path ≠ [] ∧ u.path ≠ ['/'] ∧
      id = { trust_domain := h, path := u.path, raw_url := u }) ∧
    (∀ u h, parseUrl s = some u → u.scheme = ("spiffe").toList →
      u.host = some h → h ≠ [] → u.path ≠ [] → u.path ≠ ['/'] →
      SpiffeId.parse s =
        .ok { trust_domain := h, path := u.path, raw_url := u }) ∧
    (∃ m, SpiffeId.parse (("http://example.org/x").toList) =
      .error (.invalidSpiffeId m)) ∧
    (∃ m, SpiffeId.parse (("spiffe://").toList) =
      .error (.invalidSpiffeId m)) ∧
    (∃ m, SpiffeId.parse (("spiffe://example.org").toList) =
      .error (.invalidSpiffeId m)) := by
  refine ⟨?_, ?_, ?_, ?_, ?_, ⟨_, rfl⟩, ⟨_, rfl⟩, ⟨_, rfl⟩⟩
  · intro u hu hs
    refine ⟨("Invalid scheme, expected spiffe").toList, ?_⟩
    unfold SpiffeId.parse
    rw [hu]
    simp only []
    rw [if_pos (by simpa using hs)]
  · intro u hu hh
    by_cases hs : u.scheme = ("spiffe").toList
    · rcases hh with hh | hh
      · refine ⟨("Missing trust domain").toList, ?_⟩
        unfold SpiffeId.parse
        rw [hu]
        simp only []
        rw [if_neg (by simp [hs]), hh]
      · refine ⟨("Empty trust domain").toList, ?_⟩
        unfold SpiffeId.parse
        rw [hu]
        simp only []
        rw [if_neg (by simp [hs]), hh]
        simp only []
        simp
    · refine ⟨("Invalid scheme, expected spiffe").toList, ?_⟩
      unfold SpiffeId.parse
      rw [hu]
      simp only []
      rw [if_pos (by simpa using hs)]
  · intro u h hu hh hp
    by_cases hs : u.scheme = ("spiffe").toList
    · by_cases hhe : h = []
      · subst hhe
        refine ⟨("Empty trust domain").toList, ?_⟩
        unfold SpiffeId.parse
        rw [hu]
        simp only []
        rw [if_neg (by simp [hs]), hh]
        simp only []
        simp
      · refine ⟨("SPIFFE ID must have a non-empty path").toList, ?_⟩
        unfold SpiffeId.parse
        rw [hu]
        simp only []
        rw [if_neg (by simp [hs]), hh]
        simp only []
        rw [if_neg (by simp [hhe]), if_pos (by rcases hp with hp | hp <;> simp [hp])]
    · refine ⟨("Invalid scheme, expected spiffe").toList, ?_⟩
      unfold SpiffeId.parse
      rw [hu]
      simp only []
      rw [if_pos (by simpa using hs)]
  · intro id hid
    exact SpiffeId_parse_ok_inv s id hid
  · intro u h hu hs hh hhe hpe hpr
    exact SpiffeId_parse_ok_intro s u h hu hs hh hhe hpe hpr

/-- Witness for `spiffe_parse_conditions`: the sufficiency direction
evaluated at `spiffe://example.org/service/web`. -/
theorem spiffe_parse_conditions_witness :
    SpiffeId.parse (("spiffe://example.org/service/web").toList) =
      .ok { trust_domain := ("example.org").toList,
            path := ("/service/web").toList,
            raw_url := { scheme := ("spiffe").toList,
                         host := some (("example.org").toList), port := none,
                         path := ("/service/web").toList, rest := [] } } :=
  (spiffe_parse_conditions
      (("spiffe://example.org/service/web").toList)).2.2.2.2.1
    { scheme := ("spiffe").toList, host := some (("example.org").toList),
      port := none, path := ("/service/web").toList, rest := [] }
    (("example.org").toList) rfl rfl rfl (by decide) (by decide) (by decide)

/-! ## C2 / C3: construction round-trip and data-model invariants -/

theorem urlToString_basic (h p : List Char) :
    urlToString { scheme := ("spiffe").toList, host := some h, port := none,
                  path := p, rest := [] } =
      ("spiffe://").toList ++ h ++ p := by
  have hpre : ("spiffe://").toList =
      ("spiffe").toList ++ ':' :: '/' :: '/' :: [] := rfl
  unfold urlToString
  rw [hpre]
  simp

/-- C2 (amended): for every (domain, path) accepted by `SpiffeId::new`
whose characters are URL-safe (alphanumeric, dot, dash, underscore;
plus slash in the path) and whose normalized path is not the bare root
and contains no `.` or `..` segment, the identity's text form is
exactly `spiffe://<domain><normalized path>` and parsing that text form
yields the same trust domain and the same normalized path.  (As stated,
without the dot-segment restriction, the claim is false: see the
counterexample theorem.) -/
theorem spiffeid_roundtrip (d p : List Char) (id : SpiffeId)
    (hd : d.all hostSafeChar = true) (hp : p.all pathSafeChar = true)
    (hroot : normSlash p ≠ ['/'])
    (hnodot : ∀ seg ∈ splitOnChar '/' ((normSlash p).drop 1),
      seg ≠ dotSeg ∧ seg ≠ dotDotSeg)
    (hnew : SpiffeId.new d p = .ok id) :
    id.trust_domain = d ∧ id.path = normSlash p ∧
    SpiffeId.toText id = ("spiffe://").toList ++ d ++ normSlash p ∧
    SpiffeId.parse (SpiffeId.toText id) =
      .ok { trust_domain := d, path := normSlash p,
            raw_url := id.raw_url } := by
  obtain ⟨hd0, hc1, hc2, hp0, u, hpu, hideq⟩ := SpiffeId_new_ok_inv d p id hnew
  have hdall : ∀ c ∈ d, hostSafeChar c = true := List.all_eq_true.mp hd
  have hpall : ∀ c ∈ normSlash p, pathSafeChar c = true := by
    intro c hc
    unfold normSlash at hc
    by_cases hh : p.head? = some '/'
    · rw [if_neg (by simp [hh])] at hc
      exact List.all_eq_true.mp hp c hc
    · rw [if_pos (by simp [hh])] at hc
      simp only [List.mem_cons] at hc
      rcases hc with hc | hc
      · subst hc; decide
      · exact List.all_eq_true.mp hp c hc
  have hU := parseUrl_spiffe d (normSlash p) hd0 hdall (normSlash_head p)
    hpall hnodot
  have hueq : u = { scheme := ("spiffe").toList, host := some d, port := none,
                    path := normSlash p, rest := [] } := by
    have h2 := hpu.symm.trans hU
    injection h2
  subst hueq
  subst hideq
  refine ⟨rfl, rfl, ?_, ?_⟩
  · exact urlToString_basic d (normSlash p)
  · have h3 : SpiffeId.toText
        { trust_domain := d, path := normSlash p,
          raw_url := { scheme := ("spiffe").toList, host := some d,
                       port := none, path := normSlash p, rest := [] } } =
        ("spiffe://").toList ++ d ++ normSlash p :=
      urlToString_basic d (normSlash p)
    rw [h3]
    exact SpiffeId_parse_ok_intro _ _ d hU rfl rfl hd0
      (normSlash_ne_nil p) hroot

/-- Witness for `spiffeid_roundtrip` at `("example.org", "/service/web")`. -/
theorem spiffeid_roundtrip_witness :
    spWeb.trust_domain = ("example.org").toList ∧
    spWeb.path = normSlash (("/service/web").toList) ∧
    SpiffeId.toText spWeb =
      ("spiffe://").toList ++ ("example.org").toList ++
        normSlash (("/service/web").toList) ∧
    SpiffeId.parse (SpiffeId.toText spWeb) =
      .ok { trust_domain := ("example.org").toList,
            path := normSlash (("/service/web").toList),
            raw_url := spWeb.raw_url } :=
  spiffeid_roundtrip (("example.org").toList) (("/service/web").toList) spWeb
    (by decide) (by decide) (by decide) (by decide) rfl

/-- Counterexample to C2 as frozen: `new("example.org", "..")` is
accepted with normalized path `/..`, but its text form is the
URL-normalized `spiffe://example.org/` rather than
`spiffe://example.org/..`, and that text form does not parse back at
all. -/
theorem spiffeid_roundtrip_counterexample :
    ∃ id, SpiffeId.new (("example.org").toList) (("..").toList) = .ok id ∧
      id.path = normSlash (("..").toList) ∧
      SpiffeId.toText id ≠
        ("spiffe://").toList ++ ("example.org").toList ++
          normSlash (("..").toList) ∧
      SpiffeId.toText id = ("spiffe://example.org/").toList ∧
      SpiffeId.parse (SpiffeId.toText id) =
        .error (.invalidSpiffeId
          (("SPIFFE ID must have a non-empty path").toList)) :=
  ⟨{ trust_domain := ("example.org").toList, path := '/' :: '.' :: '.' :: [],
     raw_url := { scheme := ("spiffe").toList,
                  host := some (("example.org").toList), port := none,
                  path := ['/'], rest := [] } },
   by decide, by decide, by decide, by decide, by decide⟩

/-- C3 (amended): every identity produced by validated construction or
by parsing has a non-empty trust domain containing no `/` and a
non-empty path beginning with `/`.  An identity built by `new`
additionally has no `:` in its trust domain; one produced by `parse`
can contain `:` only inside a bracketed IPv6 host literal, in which
case the trust domain begins with `[` (third conjunct: the concrete
`spiffe://[::1]/x`).  Identities from `parse` contain no `..` path
segment, but `new` does not reject `..` segments (see the
counterexample theorem), so the no-dot-dot invariant holds only for
`parse`. -/
theorem spiffeid_invariants :
    (∀ d p id, SpiffeId.new d p = .ok id →
      id.trust_domain ≠ [] ∧ '/' ∉ id.trust_domain ∧
      ':' ∉ id.trust_domain ∧ id.path ≠ [] ∧ id.path.head? = some '/') ∧
    (∀ s id, SpiffeId.parse s = .ok id →
      id.trust_domain ≠ [] ∧ '/' ∉ id.trust_domain ∧
      (':' ∈ id.trust_domain → id.trust_domain.head? = some '[') ∧
      id.path ≠ [] ∧ id.path.head? = some '/' ∧
      ∀ seg ∈ splitOnChar '/' (id.path.drop 1), seg ≠ dotDotSeg) ∧
    (∃ id6, SpiffeId.parse (("spiffe://[::1]/x").toList) = .ok id6 ∧
      id6.trust_domain = ("[::1]").toList ∧ ':' ∈ id6.trust_domain) := by
  refine ⟨?_, ?_, ?_⟩
  · intro d p id hid
    obtain ⟨hd0, hc1, hc2, hp0, u, hpu, hideq⟩ := SpiffeId_new_ok_inv d p id hid
    subst hideq
    refine ⟨hd0, ?_, ?_, normSlash_ne_nil p, normSlash_head p⟩
    · show '/' ∉ d
      simp at hc1
      exact hc1
    · show ':' ∉ d
      simp at hc2
      exact hc2
  · intro s id hid
    obtain ⟨u, hst, hpu, hsch, hhost, hhne, hpne, hpr, hideq⟩ :=
      SpiffeId_parse_ok_inv s id hid
    subst hideq
    obtain ⟨hrejf, hshape⟩ := parseUrl_some_shape s u hpu hst hhost
    obtain ⟨hnoslash, hcolon⟩ := hostRejected_false_facts hst hrejf
    rcases hshape with hp0 | ⟨x, hpx⟩
    · exact absurd hp0 hpne
    · refine ⟨hhne, ?_, ?_, hpne, ?_, ?_⟩
      · show '/' ∉ hst
        exact hnoslash
      · show ':' ∈ hst → hst.head? = some '['
        exact hcolon
      · show u.path.head? = some '/'
        rw [hpx]
        exact (normPath_spec x).1
      · show ∀ seg ∈ splitOnChar '/' (u.path.drop 1), seg ≠ dotDotSeg
        rw [hpx]
        exact (normPath_spec x).2
  · exact
      ⟨{ trust_domain := ("[::1]").toList, path := '/' :: 'x' :: [],
         raw_url := { scheme := ("spiffe").toList,
                      host := some (("[::1]").toList), port := none,
                      path := '/' :: 'x' :: [], rest := [] } },
       by decide, by decide, by decide⟩

/-- Witness for `spiffeid_invariants` at a constructed and a parsed
identity for `spiffe://example.org/service/web`. -/
theorem spiffeid_invariants_witness :
    (spWeb.trust_domain ≠ [] ∧ '/' ∉ spWeb.trust_domain ∧
      ':' ∉ spWeb.trust_domain ∧ spWeb.path ≠ [] ∧
      spWeb.path.head? = some '/') ∧
    (spWeb.trust_domain ≠ [] ∧ '/' ∉ spWeb.trust_domain ∧
      (':' ∈ spWeb.trust_domain → spWeb.trust_domain.head? = some '[') ∧
      spWeb.path ≠ [] ∧ spWeb.path.head? = some '/' ∧
      ∀ seg ∈ splitOnChar '/' (spWeb.path.drop 1), seg ≠ dotDotSeg) :=
  ⟨spiffeid_invariants.1 (("example.org").toList) (("/service/web").toList)
      spWeb rfl,
   spiffeid_invariants.2.1 (("spiffe://example.org/service/web").toList)
      spWeb rfl⟩

/-- Counterexample to C3 as frozen: `new("example.org", "..")` succeeds
and stores the path `/..`, which consists of a `..` segment. -/
theorem spiffeid_invariants_counterexample :
    ∃ id, SpiffeId.new (("example.org").toList) (("..").toList) = .ok id ∧
      id.path = ('/' :: '.' :: '.' :: []) ∧
      dotDotSeg ∈ splitOnChar '/' (id.path.drop 1) :=
  ⟨{ trust_domain := ("example.org").toList, path := '/' :: '.' :: '.' :: [],
     raw_url := { scheme := ("spiffe").toList,
                  host := some (("example.org").toList), port := none,
                  path := ['/'], rest := [] } },
   by decide, by decide, by decide⟩

end Spec2Proof
